import Mathlib

/-!
Verification of the AI Math Tutor backend (`server.py`).

This file gives a shallow embedding of the request/response processing core of
the Flask server: the JSON response cleaner (`clean_json_response`), the JSON
parse fallback inside `call_gemini`, the solution validator
(`validate_solution_response`), and the per-endpoint post-processing of the
study-mode, quiz and authentication routes.  Python dictionaries are modelled
as association lists of JSON values, Python strings as Lean `String`s
(character based, as in Python), and the mutating code is modelled
functionally, one phase per definition, in the source's statement order.

Modelling notes (each is marked again at the definition it concerns):
* `str.lower`, `str.strip` and the regex class `\s` are modelled on ASCII;
  the server only ever matches ASCII sentinel strings and fence markers.
* Python `str()` of floats, lists and dicts is approximated (digit-exact
  float formatting and `repr` quote-selection are not reproduced); no claim
  below depends on the precise text of these cases.
-/

namespace MathTutor

/-- ASCII whitespace, modelling Python's `\s` / `str.strip` character class
(space, tab, newline, carriage return, vertical tab, form feed). -/
def isWs (c : Char) : Bool :=
  c = ' ' || c = '\t' || c = '\n' || c = '\r' || c = Char.ofNat 11 || c = Char.ofNat 12

/-- ASCII lower-casing of one character, modelling `str.lower` on the ASCII
range (the server only compares ASCII markers). -/
def charLower (c : Char) : Char :=
  if 'A' ≤ c && c ≤ 'Z' then Char.ofNat (c.toNat + 32) else c

/-- `str.lower`. -/
def toLowerStr (s : String) : String :=
  String.mk (s.toList.map charLower)

/-- If `pat` is a leading run of `s`, return the remainder of `s`. -/
def stripPrefixCL : List Char → List Char → Option (List Char)
  | [], s => some s
  | _ :: _, [] => none
  | p :: ps, c :: cs => if p = c then stripPrefixCL ps cs else none

/-- Drop a leading whitespace run (the `\s*` part of the fence regexes). -/
def dropWs (s : List Char) : List Char := s.dropWhile isWs

/-- Python's `needle in haystack` on character lists. -/
def listContains (pat : List Char) : List Char → Bool
  | [] => pat.isEmpty
  | c :: cs => (stripPrefixCL pat (c :: cs)).isSome || listContains pat cs

/-- Python's `pat in s` for strings. -/
def strContains (s pat : String) : Bool := listContains pat.toList s.toList

/-- Python `str.strip()` (ASCII whitespace, see `isWs`). -/
def pyStrip (s : List Char) : List Char :=
  ((s.dropWhile isWs).reverse.dropWhile isWs).reverse

/-- `str.strip()` on strings. -/
def pyStripStr (s : String) : String := String.mk (pyStrip s.toList)

/-- Python slicing `s[:n]` for strings (character based, as in Python). -/
def pyTake (n : Nat) (s : String) : String := String.mk (s.toList.take n)

/-- Python `s.split(sep)[-1]` (for a nonempty separator `split` never returns
an empty list, so the default is never used). -/
def lastSplit (sep s : String) : String := (s.splitOn sep).getLastD s

/-- JSON values, as produced by `json.loads`.  Python floats are carried as
exact rationals (`jfloat`): the server never computes with them, it only
stores and reprints them. -/
inductive JVal where
  | jnull : JVal
  | jbool (b : Bool) : JVal
  | jnum (n : Int) : JVal
  | jfloat (q : Rat) : JVal
  | jstr (s : String) : JVal
  | jarr (elts : List JVal) : JVal
  | jobj (fields : List (String × JVal)) : JVal

open JVal

/-- A parsed JSON object / Python dict: an association list with unique keys
(the parser and all updates preserve uniqueness by construction). -/
abbrev JDict := List (String × JVal)

/-- Python truthiness of a JSON value. -/
def pyTruthy : JVal → Bool
  | jnull => false
  | jbool b => b
  | jnum n => n ≠ 0
  | jfloat q => q ≠ 0
  | jstr s => s ≠ ""
  | jarr xs => !xs.isEmpty
  | jobj kvs => !kvs.isEmpty

/-- First (and only) binding of a key in a dict. -/
def lookupKey (k : String) : JDict → Option JVal
  | [] => none
  | (k', v) :: rest => if k' = k then some v else lookupKey k rest

/-- `d[k] = v`: replace an existing binding in place, else append. -/
def setKey (k : String) (v : JVal) : JDict → JDict
  | [] => [(k, v)]
  | (k', v') :: rest => if k' = k then (k, v) :: rest else (k', v') :: setKey k v rest

/-- Python `k in d`. -/
def hasKey (k : String) (d : JDict) : Bool := (lookupKey k d).isSome

/-- Python `d.get(k)` (absent key yields `None`). -/
def jget (d : JDict) (k : String) : JVal := (lookupKey k d).getD jnull

/-- Python `d.get(k, default)`. -/
def jgetD (d : JDict) (k : String) (dflt : JVal) : JVal := (lookupKey k d).getD dflt

/-- `.get(k)` applied to a JSON value known to be a dict (the server only
does this on values it has just produced as dicts). -/
def jvalGetKey (v : JVal) (k : String) : JVal :=
  match v with
  | jobj f => jget f k
  | _ => jnull

/-- Python `k in v` for a JSON value known to be a dict. -/
def jvalHasKey (v : JVal) (k : String) : Bool :=
  match v with
  | jobj f => (lookupKey k f).isSome
  | _ => false

/-- `l[-1]` of a JSON list value (the server only indexes nonempty lists). -/
def jvalLast : JVal → JVal
  | jarr l => l.getLastD jnull
  | _ => jnull

/-- Python `len`, defined on the sized JSON values; `none` models the
`TypeError` raised on unsized values. -/
def pyLen : JVal → Option Nat
  | jstr s => some s.length
  | jarr l => some l.length
  | jobj f => some f.length
  | _ => none

/-- Python `x == "lit"` where `x` is an arbitrary JSON value: only equal
strings compare equal. -/
def isStrVal (v : JVal) (s : String) : Bool :=
  match v with
  | jstr t => t = s
  | _ => false

/-- Python digit-for-digit `str()` of an int. -/
def intStr (n : Int) : String := toString n

/-- `repr` of the scalar JSON values. Python's `repr` of a string picks its
quote character by content and escapes; this model always uses a single
quote and no escaping (no claim depends on container/`repr` text). -/
def pyReprAtom : JVal → Option String
  | jnull => some "None"
  | jbool true => some "True"
  | jbool false => some "False"
  | jnum n => some (intStr n)
  | jfloat q => some (toString q)
  | jstr s => some ("\x27" ++ s ++ "\x27")
  | _ => none

mutual
/-- Python `repr()` of a JSON value (see `pyReprAtom` for the approximations
on scalars; containers are rendered element-wise as in Python). -/
def pyRepr : JVal → String
  | jnull => "None"
  | jbool true => "True"
  | jbool false => "False"
  | jnum n => intStr n
  | jfloat q => toString q
  | jstr s => "\x27" ++ s ++ "\x27"
  | jarr xs => "[" ++ pyReprList xs ++ "]"
  | jobj kvs => "\x7b" ++ pyReprFields kvs ++ "\x7d"

/-- Comma-joined `repr`s of list elements. -/
def pyReprList : List JVal → String
  | [] => ""
  | [x] => pyRepr x
  | x :: y :: xs => pyRepr x ++ ", " ++ pyReprList (y :: xs)

/-- Comma-joined `repr`s of dict entries. -/
def pyReprFields : List (String × JVal) → String
  | [] => ""
  | [(k, v)] => "\x27" ++ k ++ "\x27: " ++ pyRepr v
  | (k, v) :: e :: kvs => "\x27" ++ k ++ "\x27: " ++ pyRepr v ++ ", " ++ pyReprFields (e :: kvs)
end

/-- Python `str()` of a JSON value (scalars directly; containers via their
`repr`, as Python does). -/
def pyStr (v : JVal) : String :=
  match v with
  | jnull => "None"
  | jbool true => "True"
  | jbool false => "False"
  | jnum n => intStr n
  | jfloat q => toString q
  | jstr s => s
  | jarr xs => pyRepr (jarr xs)
  | jobj kvs => pyRepr (jobj kvs)

/-- The opening brace character. -/
def lb : Char := '\x7b'

/-- The closing brace character. -/
def rb : Char := '\x7d'

/-- The backtick character. -/
def bt : Char := '\x60'

/-- One pass of `re.sub(pat, '', text)` for a literal pattern `p :: ps`
optionally followed by `\s*` (`ws = true`): scan left to right, delete each
non-overlapping match (greedy in the whitespace run), keep other characters.
`fuel` bounds the recursion; one character of input is consumed per step, so
`fuel = length` (see `reSub`) never runs out. -/
def reSubF (p : Char) (ps : List Char) (ws : Bool) : Nat → List Char → List Char
  | 0, s => s
  | _ + 1, [] => []
  | fuel + 1, c :: cs =>
    match stripPrefixCL (p :: ps) (c :: cs) with
    | some r => reSubF p ps ws fuel (if ws then dropWs r else r)
    | none => c :: reSubF p ps ws fuel cs

/-- `re.sub(pat, '', text)` for a literal pattern `p :: ps`, with `ws = true`
when the pattern ends in `\s*`. -/
def reSub (p : Char) (ps : List Char) (ws : Bool) (s : List Char) : List Char :=
  reSubF p ps ws s.length s

/-- Tail of the literal in the regex `` ```json\s* ``. -/
def fenceJsonTail : List Char := ['\x60', '\x60', 'j', 's', 'o', 'n']

/-- Tail of the literal in the regexes `` ```\s* `` and `` ``` ``. -/
def fenceTail : List Char := ['\x60', '\x60']

/-- The three `re.sub` passes of `clean_json_response`: strip `` ```json``
(with trailing whitespace), then `` ``` `` (with trailing whitespace), then
any remaining bare `` ``` ``. -/
def removeFences (s : List Char) : List Char :=
  reSub bt fenceTail false (reSub bt fenceTail true (reSub bt fenceJsonTail true s))

/-- Python `text.find(c)` (as `none` instead of `-1`). -/
def firstIdx (c : Char) : List Char → Option Nat
  | [] => none
  | x :: xs => if x = c then some 0 else (firstIdx c xs).map (· + 1)

/-- Python `text.rfind(c)` (as `none` instead of `-1`). -/
def lastIdx (c : Char) : List Char → Option Nat
  | [] => none
  | x :: xs =>
    match lastIdx c xs with
    | some i => some (i + 1)
    | none => if x = c then some 0 else none

/-- Python slicing `s[a:b]`. -/
def pySlice (s : List Char) (a b : Nat) : List Char := (s.take b).drop a

/-- `clean_json_response` from `server.py`: empty input yields `"{}"`;
otherwise markdown fences are deleted, the text is stripped, and the span
from the first `{` to the last `}` is returned (stripped); if either brace
is missing, a fixed JSON error object is returned. -/
def clean_json_response (text : String) : String :=
  if text = "" then "\x7b\x7d"
  else
    let t := pyStrip (removeFences text.toList)
    match firstIdx lb t, lastIdx rb t with
    | some start, some stop => String.mk (pyStrip (pySlice t start (stop + 1)))
    | _, _ => "\x7b\"error\": \"No valid JSON found in response\"\x7d"

/-- JSON's whitespace characters (RFC 8259, as accepted by `json.loads`). -/
def isJsonWs (c : Char) : Bool := c = ' ' || c = '\t' || c = '\n' || c = '\r'

/-- Skip JSON whitespace. -/
def skipJsonWs (s : List Char) : List Char := s.dropWhile isJsonWs

/-- Hex digit value, for `\uXXXX` escapes (by raw code point: `0`-`9` are
48-57, `A`-`F` 65-70, `a`-`f` 97-102). -/
def hexVal (c : Char) : Option Nat :=
  let n := c.toNat
  if 48 ≤ n && n ≤ 57 then some (n - 48)
  else if 97 ≤ n && n ≤ 102 then some (n - 87)
  else if 65 ≤ n && n ≤ 70 then some (n - 55)
  else none

/-- Parse the body of a JSON string literal (after the opening quote),
returning the accumulated characters and the remaining input.  Surrogate
pair combination is not modelled (`\uXXXX` maps straight to a code point). -/
def parseStringBody (acc : List Char) : List Char → Option (String × List Char)
  | [] => none
  | '"' :: rest => some (String.mk acc.reverse, rest)
  | '\\' :: esc :: rest =>
    match esc with
    | '"' => parseStringBody ('"' :: acc) rest
    | '\\' => parseStringBody ('\\' :: acc) rest
    | '/' => parseStringBody ('/' :: acc) rest
    | 'b' => parseStringBody (Char.ofNat 8 :: acc) rest
    | 'f' => parseStringBody (Char.ofNat 12 :: acc) rest
    | 'n' => parseStringBody ('\n' :: acc) rest
    | 'r' => parseStringBody ('\r' :: acc) rest
    | 't' => parseStringBody ('\t' :: acc) rest
    | 'u' =>
      match rest with
      | a :: b :: c :: d :: rest2 =>
        match hexVal a, hexVal b, hexVal c, hexVal d with
        | some ha, some hb, some hc, some hd =>
          parseStringBody (Char.ofNat (ha * 4096 + hb * 256 + hc * 16 + hd) :: acc) rest2
        | _, _, _, _ => none
      | _ => none
    | _ => none
  | '\\' :: [] => none
  | c :: rest => if c.toNat < 32 then none else parseStringBody (c :: acc) rest

/-- One or more decimal digits. -/
def parseDigits (acc : List Char) : List Char → (List Char × List Char)
  | [] => (acc.reverse, [])
  | c :: cs => if '0' ≤ c && c ≤ '9' then parseDigits (c :: acc) cs else (acc.reverse, c :: cs)

/-- Digits to a natural number (code point 48 is `'0'`). -/
def digitsToNat (ds : List Char) : Nat :=
  ds.foldl (fun acc c => 10 * acc + (c.toNat - 48)) 0

/-- Parse a JSON number (strict grammar: no leading zeros, optional fraction
and exponent).  Integer literals give `jnum`; fraction/exponent literals give
`jfloat` with the exact decimal value `json.loads` would round to a float. -/
def parseNumber (s : List Char) : Option (JVal × List Char) :=
  let (neg, s1) := match s with
    | '-' :: t => (true, t)
    | _ => (false, s)
  match s1 with
  | [] => none
  | c :: _ =>
    if !('0' ≤ c && c ≤ '9') then none
    else
      let (intDs, s2) := parseDigits [] s1
      if intDs.length > 1 && intDs.headD '0' = '0' then none
      else
        let (fracDs, s3) := match s2 with
          | '.' :: t =>
            match t with
            | d :: _ => if '0' ≤ d && d ≤ '9' then parseDigits [] t else ([], '.' :: t)
            | [] => ([], '.' :: t)
          | _ => ([], s2)
        if (match s2 with | '.' :: _ => fracDs.isEmpty | _ => false) then none
        else
          let (expOk, expNeg, expDs, s4) := match s3 with
            | e :: t =>
              if e = 'e' || e = 'E' then
                let (en, t1) := match t with
                  | '+' :: t2 => (false, t2)
                  | '-' :: t2 => (true, t2)
                  | _ => (false, t)
                match t1 with
                | d :: _ =>
                  if '0' ≤ d && d ≤ '9' then
                    let (ds, t2) := parseDigits [] t1
                    (true, en, ds, t2)
                  else (false, false, [], s3)
                | [] => (false, false, [], s3)
              else (true, false, [], s3)
            | [] => (true, false, [], s3)
          if !expOk then none
          else
            let mantissa : Int := Int.ofNat (digitsToNat (intDs ++ fracDs))
            let mantissa := if neg then -mantissa else mantissa
            let exp10 : Int := (if expNeg then -(Int.ofNat (digitsToNat expDs))
                                else Int.ofNat (digitsToNat expDs)) - Int.ofNat fracDs.length
            if fracDs.isEmpty && expDs.isEmpty && (match s3 with | 'e' :: _ => false | 'E' :: _ => false | _ => true) then
              some (jnum mantissa, s4)
            else
              let q : Rat := (mantissa : Rat) * (10 : Rat) ^ exp10
              some (jfloat q, s4)

mutual
/-- Parse one JSON value at the head of the input (whitespace already
skipped by callers where the grammar allows it). -/
def parseVal : Nat → List Char → Option (JVal × List Char)
  | 0, _ => none
  | fuel + 1, s =>
    match skipJsonWs s with
    | [] => none
    | c :: cs =>
      if c = lb then
        match skipJsonWs cs with
        | c2 :: cs2 =>
          if c2 = rb then some (jobj [], cs2)
          else parseMembers fuel (c2 :: cs2) []
        | [] => none
      else if c = '[' then
        match skipJsonWs cs with
        | c2 :: cs2 =>
          if c2 = ']' then some (jarr [], cs2)
          else parseElems fuel (c2 :: cs2) []
        | [] => none
      else if c = '"' then
        match parseStringBody [] cs with
        | some (str, rest) => some (jstr str, rest)
        | none => none
      else if c = 't' then
        match stripPrefixCL ['r', 'u', 'e'] cs with
        | some rest => some (jbool true, rest)
        | none => none
      else if c = 'f' then
        match stripPrefixCL ['a', 'l', 's', 'e'] cs with
        | some rest => some (jbool false, rest)
        | none => none
      else if c = 'n' then
        match stripPrefixCL ['u', 'l', 'l'] cs with
        | some rest => some (jnull, rest)
        | none => none
      else parseNumber (c :: cs)

/-- Parse the members of a JSON object after `{` (first non-`}` token
already at the head); duplicate keys are resolved last-wins, as in
`json.loads`. -/
def parseMembers : Nat → List Char → JDict → Option (JVal × List Char)
  | 0, _, _ => none
  | fuel + 1, s, acc =>
    match s with
    | '"' :: cs =>
      match parseStringBody [] cs with
      | some (key, rest) =>
        match skipJsonWs rest with
        | ':' :: rest2 =>
          match parseVal fuel (skipJsonWs rest2) with
          | some (v, rest3) =>
            let acc2 := setKey key v acc
            match skipJsonWs rest3 with
            | ',' :: rest4 =>
              match skipJsonWs rest4 with
              | '"' :: rest5 => parseMembers fuel ('"' :: rest5) acc2
              | _ => none
            | c :: rest4 => if c = rb then some (jobj acc2, rest4) else none
            | [] => none
          | none => none
        | _ => none
      | none => none
    | _ => none

/-- Parse the elements of a JSON array after `[` (first non-`]` token
already at the head). -/
def parseElems : Nat → List Char → List JVal → Option (JVal × List Char)
  | 0, _, _ => none
  | fuel + 1, s, acc =>
    match parseVal fuel s with
    | some (v, rest) =>
      match skipJsonWs rest with
      | ',' :: rest2 => parseElems fuel (skipJsonWs rest2) (v :: acc)
      | ']' :: rest2 => some (jarr (v :: acc).reverse, rest2)
      | _ => none
    | none => none
end

/-- `json.loads`: parse one JSON document and require only whitespace after
it.  `none` models a raised `json.JSONDecodeError`. -/
def json_loads (s : String) : Option JVal :=
  match parseVal (s.length + 1) s.toList with
  | some (v, rest) => if skipJsonWs rest = [] then some v else none
  | none => none

/-! ### The JSON-parse fallback inside `call_gemini` -/

/-- Truncation applied to the raw model text when it is embedded as the
fallback step's explanation: `response_text[:1000] if len(...) > 1000 else
response_text`. -/
def truncate1000 (s : String) : String :=
  if s.length > 1000 then pyTake 1000 s else s

/-- The first line containing the word `"answer"` (case-insensitively)
together with `'='` or `':'` — the loop body of the crude answer scan. -/
def answer_line (response_text : String) : Option String :=
  (response_text.splitOn "\n").find?
    (fun line => strContains (toLowerStr line) "answer" && (strContains line "=" || strContains line ":"))

/-- `line.split('=')[-1].split(':')[-1].strip()`. -/
def extract_answer_candidate (line : String) : String :=
  pyStripStr (lastSplit ":" (lastSplit "=" line))

/-- The `final_answer` produced by `call_gemini`'s parse-failure scan: empty
unless the text mentions "answer" and a line of the scanned shape exists, in
which case the candidate is cut out of the first such line. -/
def scanned_final_answer (response_text : String) : String :=
  if strContains (toLowerStr response_text) "answer" then
    match answer_line response_text with
    | some line => extract_answer_candidate line
    | none => ""
  else ""

/-- Python `s or default` for strings. -/
def orDefault (s dflt : String) : String := if s = "" then dflt else s

/-- The literal fallback dict built by `call_gemini` when `json.loads`
raises on the cleaned response text. -/
def fallback_solution (response_text : String) : JVal :=
  jobj
    [("problem_detected", jstr "Problem analyzed"),
     ("problem_type", jstr "Mathematical Problem"),
     ("concepts", jarr []),
     ("steps", jarr
       [jobj
         [("step_number", jnum 1),
          ("action", jstr "Solution"),
          ("explanation", jstr (truncate1000 response_text)),
          ("result", jstr (orDefault (scanned_final_answer response_text) "See explanation"))]]),
     ("final_answer",
       jstr (orDefault (scanned_final_answer response_text)
         "See the explanation above for the complete solution")),
     ("verification", jstr "Verify by checking the steps above")]

/-- The response-normalisation step of `call_gemini`: clean the raw text,
`json.loads` it, and on a parse error return the synthesized fallback
instead of raising. -/
def call_gemini_normalize (response_text : String) : JVal :=
  match json_loads (clean_json_response response_text) with
  | some v => v
  | none => fallback_solution response_text

/-! ### `validate_solution_response` -/

/-- The `invalid_answers` list of `validate_solution_response`, verbatim
(`''` and `None` included; the loop's `if invalid` truthiness guard skips
them, see `is_valid_answer`). -/
def invalid_answers : List JVal :=
  [jstr "N/A", jstr "n/a", jstr "", jnull, jstr "Unable to determine",
   jstr "See steps above", jstr "No math problem found",
   jstr "Could not identify", jstr "Unable to solve"]

/-- The nested `is_valid_answer` of `validate_solution_response`: falsy
values are invalid; otherwise the stripped lower-cased text must contain no
(truthy) sentinel as a substring and be nonempty. -/
def is_valid_answer (ans : JVal) : Bool :=
  if !pyTruthy ans then false
  else
    let ans_str := toLowerStr (pyStripStr (pyStr ans))
    if invalid_answers.any
        (fun invalid => pyTruthy invalid && strContains ans_str (toLowerStr (pyStr invalid))) then
      false
    else decide (ans_str.length > 0)

/-- Phase 1 of `validate_solution_response`: default `problem_detected`,
`problem_type` and `concepts`. -/
def ensure_problem_fields (solution : JDict) (source_description : String) : JDict :=
  let s1 :=
    if !pyTruthy (jget solution "problem_detected") then
      setKey "problem_detected" (jstr ("Problem from " ++ source_description)) solution
    else solution
  let s2 :=
    if !pyTruthy (jget s1 "problem_type") || isStrVal (jget s1 "problem_type") "N/A" then
      setKey "problem_type" (jstr "Mathematical Problem") s1
    else s1
  if !pyTruthy (jget s2 "concepts") || !(match jget s2 "concepts" with | jarr _ => true | _ => false) then
    setKey "concepts" (jarr []) s2
  else s2

/-- One step of the `has_valid_steps` check: the step is a dict whose
`result` is truthy and a valid answer. -/
def step_has_valid_result (step : JVal) : Bool :=
  match step with
  | jobj fields => pyTruthy (jget fields "result") && is_valid_answer (jget fields "result")
  | _ => false

/-- `has_valid_steps`: `steps` is a truthy (hence nonempty) list one of
whose members carries a valid `result`. -/
def has_valid_steps (solution : JDict) : Bool :=
  match jget solution "steps" with
  | jarr steps => pyTruthy (jarr steps) && steps.any step_has_valid_result
  | _ => false

/-- The synthetic step echoing a valid `final_answer`. -/
def synth_answer_step (final_answer : JVal) : JVal :=
  jobj
    [("step_number", jnum 1),
     ("action", jstr "Solution"),
     ("explanation", jstr "The problem was analyzed and solved."),
     ("result", jstr (pyStr final_answer))]

/-- The synthetic "Processing Issue" step (note the source slices
`source_description[:200]` only when its length exceeds 50). -/
def processing_issue_step (source_description : String) : JVal :=
  jobj
    [("step_number", jnum 1),
     ("action", jstr "Processing Issue"),
     ("explanation", jstr ("The AI could not generate a proper solution. Extracted content: " ++
        (if source_description.length > 50 then pyTake 200 source_description else source_description))),
     ("result", jstr "Please try typing the problem manually")]

/-- The per-step repair in the valid-steps branch: non-dict steps are
replaced wholesale; dict steps get the four fields backfilled and a
sentinel `result` blanked. -/
def fix_step (i : Nat) (step : JVal) : JVal :=
  match step with
  | jobj fields =>
    let f1 := setKey "step_number" (jgetD fields "step_number" (jnum ((i : Int) + 1))) fields
    let f2 := setKey "action" (jgetD f1 "action" (jstr "Step")) f1
    let f3 := setKey "explanation" (jgetD f2 "explanation" (jstr "")) f2
    let result := jgetD f3 "result" (jstr "")
    jobj (setKey "result" (if is_valid_answer result then result else jstr "") f3)
  | other =>
    jobj
      [("step_number", jnum ((i : Int) + 1)),
       ("action", jstr "Step"),
       ("explanation", jstr (pyStr other)),
       ("result", jstr "")]

/-- `for i, step in enumerate(steps)` applied as a map. -/
def mapWithIdx (f : Nat → JVal → JVal) : Nat → List JVal → List JVal
  | _, [] => []
  | i, x :: xs => f i x :: mapWithIdx f (i + 1) xs

/-- Phase 2 of `validate_solution_response`: replace or repair `steps`. -/
def fix_steps (solution : JDict) (source_description : String) : JDict :=
  if !has_valid_steps solution then
    if pyTruthy (jget solution "final_answer") && is_valid_answer (jget solution "final_answer") then
      setKey "steps" (jarr [synth_answer_step (jgetD solution "final_answer" (jstr ""))]) solution
    else
      setKey "steps" (jarr [processing_issue_step source_description]) solution
  else
    match jget solution "steps" with
    | jarr steps => setKey "steps" (jarr (mapWithIdx fix_step 0 steps)) solution
    | _ => solution

/-- Phase 3 of `validate_solution_response`: ensure `final_answer` is valid,
backfilling from the last step's `result` or an explicit message. -/
def fix_final_answer (solution : JDict) : JDict :=
  if is_valid_answer (jget solution "final_answer") then solution
  else
    let steps := jget solution "steps"
    let lastResult := jvalGetKey (jvalLast steps) "result"
    if pyTruthy steps && is_valid_answer lastResult then
      setKey "final_answer" lastResult solution
    else
      setKey "final_answer" (jstr "Unable to determine - please try entering the problem as text") solution

/-- Phase 4 of `validate_solution_response`: default `verification`. -/
def fix_verification (solution : JDict) : JDict :=
  if !pyTruthy (jget solution "verification") || isStrVal (jget solution "verification") "N/A" then
    setKey "verification" (jstr "Verify by substituting the answer back into the original problem") solution
  else solution

/-- `validate_solution_response` from `server.py`, as the composition of its
four phases in source order.  The input is the (possibly empty) dict from
`call_gemini`; `if not solution: solution = {}` is the identity on dicts
since a falsy dict is already empty. -/
def validate_solution_response (solution : JDict) (source_description : String) : JDict :=
  fix_verification (fix_final_answer (fix_steps (ensure_problem_fields solution source_description) source_description))

/-! ### Endpoint post-processing and authentication gates -/

/-- Truthiness of the `X-API-Key` header value (`None` or `""` is falsy). -/
def keyTruthy : Option String → Bool
  | none => false
  | some s => s ≠ ""

/-- An HTTP response: status code and JSON body. -/
abbrev HttpResp := Nat × JDict

/-- The 401 body shared by `/api/solve`, `/api/solve/file`,
`/api/study/start`, `/api/quiz/generate` and `/api/quiz/evaluate` when no
key is supplied. -/
def no_api_key_long : HttpResp :=
  (401, [("error", jstr "API key is required. Please sign in and provide your Gemini API key."),
         ("code", jstr "NO_API_KEY")])

/-- The 401 body shared by `/api/study/hint`, `/api/study/check` and
`/api/study/solution` when no key is supplied. -/
def no_api_key_short : HttpResp :=
  (401, [("error", jstr "API key is required."), ("code", jstr "NO_API_KEY")])

/-- The authentication gate at the top of `solve_problem`; `rest` abstracts
everything after the key check (request parsing, the Gemini call and
response handling), so the gate returning without consuming it models the
short-circuit before any external call. -/
def solve_problem_route (api_key : Option String) (rest : Unit → HttpResp) : HttpResp :=
  if !keyTruthy api_key then no_api_key_long else rest ()

/-- The authentication gate of `solve_from_file`. -/
def solve_from_file_route (api_key : Option String) (rest : Unit → HttpResp) : HttpResp :=
  if !keyTruthy api_key then no_api_key_long else rest ()

/-- The authentication gate of `start_study_session`. -/
def start_study_session_route (api_key : Option String) (rest : Unit → HttpResp) : HttpResp :=
  if !keyTruthy api_key then no_api_key_long else rest ()

/-- The authentication gate of `get_study_hint`. -/
def get_study_hint_route (api_key : Option String) (rest : Unit → HttpResp) : HttpResp :=
  if !keyTruthy api_key then no_api_key_short else rest ()

/-- The authentication gate of `check_study_step`. -/
def check_study_step_route (api_key : Option String) (rest : Unit → HttpResp) : HttpResp :=
  if !keyTruthy api_key then no_api_key_short else rest ()

/-- The authentication gate of `get_step_solution`. -/
def get_step_solution_route (api_key : Option String) (rest : Unit → HttpResp) : HttpResp :=
  if !keyTruthy api_key then no_api_key_short else rest ()

/-- The authentication gate of `generate_quiz`. -/
def generate_quiz_route (api_key : Option String) (rest : Unit → HttpResp) : HttpResp :=
  if !keyTruthy api_key then no_api_key_long else rest ()

/-- The authentication gate of `evaluate_answer`. -/
def evaluate_answer_route (api_key : Option String) (rest : Unit → HttpResp) : HttpResp :=
  if !keyTruthy api_key then no_api_key_long else rest ()

/-- The missing-key branch of `verify_api_key`: HTTP 400 with a body
carrying `valid`/`error` but no machine-readable `code` field. -/
def verify_api_key_route (api_key : Option String) (rest : Unit → HttpResp) : HttpResp :=
  if !keyTruthy api_key then (400, [("valid", jbool false), ("error", jstr "API key is required")])
  else rest ()

/-- ASCII upper-casing of one character, modelling `str.upper`. -/
def charUpper (c : Char) : Char :=
  if 'a' ≤ c && c ≤ 'z' then Char.ofNat (c.toNat - 32) else c

/-- `str.upper`. -/
def toUpperStr (s : String) : String :=
  String.mk (s.toList.map charUpper)

/-- The generic `except Exception` classifier at the bottom of
`solve_problem`: upstream errors whose message carries an API-key marker
become 401 `INVALID_API_KEY`, everything else a generic 500. -/
def classify_gemini_error (error_message : String) : HttpResp :=
  if strContains (toUpperStr error_message) "API_KEY" ||
     strContains (toLowerStr error_message) "invalid" ||
     strContains error_message "401" then
    (401, [("error", jstr "Invalid API key. Please check your Gemini API key."),
           ("code", jstr "INVALID_API_KEY"),
           ("help", jstr "Get a free key at: https://aistudio.google.com/apikey")])
  else (500, [("error", jstr ("Server Error: " ++ error_message))])

/-- Post-processing of the parsed model response in `get_study_hint`:
default the hint text, then overwrite `hint_level` and
`next_hint_available` from the request's `hint_level`, then default the
encouragement. -/
def get_study_hint_post (hint_level : Int) (hint_response : JDict) : JDict :=
  let h1 :=
    if !pyTruthy (jget hint_response "hint") then
      setKey "hint" (jstr "Think about what mathematical operation would help you here.") hint_response
    else hint_response
  let h2 := setKey "hint_level" (jnum hint_level) h1
  let h3 := setKey "next_hint_available" (jbool (hint_level < 3)) h2
  if !pyTruthy (jget h3 "encouragement") then
    setKey "encouragement" (jstr "You\x27re doing great! Keep thinking through it.") h3
  else h3

/-- Post-processing of the parsed model response in `check_study_step`:
fail closed on a missing `is_correct`, then default `feedback` and
`encouragement` (the latter depending on `is_correct`'s truthiness). -/
def check_study_step_post (check_response : JDict) : JDict :=
  let c1 :=
    if !hasKey "is_correct" check_response then
      setKey "is_correct" (jbool false) check_response
    else check_response
  let c2 :=
    if !pyTruthy (jget c1 "feedback") then
      setKey "feedback" (jstr "Let me check your work...") c1
    else c1
  if !pyTruthy (jget c2 "encouragement") then
    if pyTruthy (jget c2 "is_correct") then
      setKey "encouragement" (jstr "Excellent work! You got it right!") c2
    else
      setKey "encouragement" (jstr "Good effort! Let\x27s look at what happened.") c2
  else c2

/-- The default study step substituted when the model returned no steps. -/
def default_study_step : JVal :=
  jobj
    [("step_number", jnum 1),
     ("objective", jstr "Solve the problem"),
     ("instruction", jstr "Work through the problem step by step"),
     ("skill_required", jstr "Mathematical reasoning"),
     ("expected_format", jstr "The final answer")]

/-- First fix-up in `start_study_session`: a falsy `steps` is replaced with
the single default step. -/
def study_plan_fill_steps (study_plan : JDict) : JDict :=
  if !pyTruthy (jget study_plan "steps") then
    setKey "steps" (jarr [default_study_step]) study_plan
  else study_plan

/-- Second fix-up in `start_study_session`: a falsy `total_steps` is set to
`len(study_plan['steps'])`; `none` models the `TypeError` Python would
raise if `steps` were a truthy unsized value. -/
def study_plan_fill_total (p1 : JDict) : Option JDict :=
  if !pyTruthy (jget p1 "total_steps") then
    (pyLen (jget p1 "steps")).map (fun n => setKey "total_steps" (jnum (n : Int)) p1)
  else some p1

/-- Remaining fix-ups in `start_study_session`: default `problem` and
`encouragement`. -/
def study_plan_fill_rest (problem : String) (p2 : JDict) : JDict :=
  let p3 :=
    if !pyTruthy (jget p2 "problem") then setKey "problem" (jstr problem) p2 else p2
  if !pyTruthy (jget p3 "encouragement") then
    setKey "encouragement"
      (jstr "Let\x27s work through this problem together! Take your time with each step.") p3
  else p3

/-- Post-processing of the parsed model response in `start_study_session`,
in source order: default `steps`, backfill a falsy `total_steps`, then
default `problem` and `encouragement`. -/
def start_study_session_post (problem : String) (study_plan : JDict) : Option JDict :=
  (study_plan_fill_total (study_plan_fill_steps study_plan)).map (study_plan_fill_rest problem)

/-- The clamp in `generate_quiz`: `num_questions = data.get('num_questions', 3)`
followed by `min(max(1, num_questions), 10)`. -/
def clamp_num_questions (requested : Option Int) : Int :=
  let num_questions := requested.getD 3
  min (max 1 num_questions) 10

/-- The quiz prompt composed by `generate_quiz` from the clamped count. -/
def generate_quiz_prompt (topic difficulty : String) (requested : Option Int) : String :=
  "Generate " ++ intStr (clamp_num_questions requested) ++ " " ++ difficulty ++
    " difficulty quiz questions about " ++ topic ++ "."

/-- The content parts assembled by `call_gemini_with_image`: when given a
list of images only the first 3 are kept, then the combined prompt text is
appended; a single image is passed through. -/
def call_gemini_with_image_parts {Img : Type} (images : List Img ⊕ Img)
    (prompt system_prompt : String) : List (Img ⊕ String) :=
  let content_parts : List (Img ⊕ String) :=
    match images with
    | Sum.inl imgs => (imgs.take 3).map Sum.inl
    | Sum.inr img => [Sum.inl img]
  let full_prompt :=
    if prompt ≠ "" then system_prompt ++ "\n\nAdditional context from user: " ++ prompt
    else system_prompt
  content_parts ++ [Sum.inr full_prompt]

/-- The success-path body of `evaluate_answer`: the handler returns
`call_gemini`'s result directly.  Because `call_gemini` catches
`json.JSONDecodeError` itself (returning `fallback_solution`), the
handler's own `except json.JSONDecodeError` branch — the literal
string-equality fallback below — is unreachable. -/
def evaluate_answer_response (correct_answer student_answer raw : String) : JVal :=
  call_gemini_normalize raw

/-- The (unreachable) `except json.JSONDecodeError` body of
`evaluate_answer`: a literal case-insensitive stripped string comparison. -/
def evaluate_answer_parse_fallback (correct_answer student_answer : String) : JVal :=
  let is_correct := toLowerStr (pyStripStr student_answer) = toLowerStr (pyStripStr correct_answer)
  jobj
    [("is_correct", jbool is_correct),
     ("feedback", jstr (if is_correct then "Correct! Great job!" else "Not quite right. Keep practicing!")),
     ("explanation", jstr (if is_correct then "" else "The correct answer was: " ++ correct_answer))]

/-- The image component of a content part, if any. -/
def partImage {Img : Type} : Img ⊕ String → Option Img
  | Sum.inl i => some i
  | Sum.inr _ => none

/-- The sentinel placeholders named by claim C1 (lower-cased; "empty" is
handled separately in `answer_is_sentinel`). -/
def claim_sentinels : List String :=
  ["n/a", "unable to determine", "see steps above", "no math problem found",
   "could not identify", "unable to solve"]

/-- Claim C1's notion of a sentinel final answer: empty, or containing one
of the defined placeholder values case-insensitively as a substring. -/
def answer_is_sentinel (v : JVal) : Bool :=
  toLowerStr (pyStripStr (pyStr v)) = ""
    || claim_sentinels.any (fun t => strContains (toLowerStr (pyStripStr (pyStr v))) t)

/-- Prose without braces — the restriction on C3's surrounding prose forced
by its counterexample. -/
def braceFree (s : String) : Prop := ∀ c ∈ s.toList, c ≠ lb ∧ c ≠ rb

/-- Claim C1's structural completeness of a step: a dict carrying all four
fields `step_number`, `action`, `explanation`, `result`. -/
def step_complete (v : JVal) : Bool :=
  match v with
  | jobj f =>
    hasKey "step_number" f && hasKey "action" f && hasKey "explanation" f && hasKey "result" f
  | _ => false

/-! ### Dictionary lemmas -/

theorem lookupKey_setKey (k k2 : String) (v : JVal) (d : JDict) :
    lookupKey k (setKey k2 v d) = if k2 = k then some v else lookupKey k d := by
  induction d with
  | nil => by_cases h : k2 = k <;> simp [setKey, lookupKey, h]
  | cons hd tl ih =>
    obtain ⟨k', v'⟩ := hd
    by_cases h1 : k' = k2
    · subst h1
      by_cases h2 : k' = k <;> simp [setKey, lookupKey, h2]
    · by_cases h2 : k' = k
      · subst h2
        have hk2 : ¬k2 = k' := fun hh => h1 hh.symm
        simp [setKey, lookupKey, h1, hk2]
      · simp [setKey, lookupKey, h1, h2, ih]

theorem lookupKey_setKey_self (k : String) (v : JVal) (d : JDict) :
    lookupKey k (setKey k v d) = some v := by
  simp [lookupKey_setKey]

theorem lookupKey_setKey_ne {k k2 : String} (h : k2 ≠ k) (v : JVal) (d : JDict) :
    lookupKey k (setKey k2 v d) = lookupKey k d := by
  simp [lookupKey_setKey, h]

theorem hasKey_setKey (k k2 : String) (v : JVal) (d : JDict) :
    hasKey k (setKey k2 v d) = if k2 = k then true else hasKey k d := by
  by_cases h : k2 = k <;> simp [hasKey, lookupKey_setKey, h]

theorem hasKey_of_truthy_jget {k : String} {d : JDict} (h : pyTruthy (jget d k) = true) :
    hasKey k d = true := by
  unfold jget at h
  unfold hasKey
  cases hl : lookupKey k d with
  | none => rw [hl] at h; simp [pyTruthy] at h
  | some v => simp

/-! ### C5: `next_hint_available` is a pure function of the requested level -/

/-- C5: for every parsed model response, `/api/study/hint` post-processing
sets `next_hint_available` to exactly `hint_level < 3` (and echoes the
requested `hint_level`), independently of the model output; in particular
levels 1, 2, 3 give `true`, `true`, `false`. -/
theorem claim_C5 (hint_level : Int) (hint_response : JDict) :
    lookupKey "next_hint_available" (get_study_hint_post hint_level hint_response)
        = some (jbool (decide (hint_level < 3)))
    ∧ lookupKey "hint_level" (get_study_hint_post hint_level hint_response)
        = some (jnum hint_level)
    ∧ (∀ other : JDict,
        lookupKey "next_hint_available" (get_study_hint_post hint_level hint_response)
          = lookupKey "next_hint_available" (get_study_hint_post hint_level other))
    ∧ lookupKey "next_hint_available" (get_study_hint_post 1 hint_response) = some (jbool true)
    ∧ lookupKey "next_hint_available" (get_study_hint_post 2 hint_response) = some (jbool true)
    ∧ lookupKey "next_hint_available" (get_study_hint_post 3 hint_response) = some (jbool false) := by
  have key : ∀ (hl : Int) (resp : JDict),
      lookupKey "next_hint_available" (get_study_hint_post hl resp) = some (jbool (decide (hl < 3))) := by
    intro hl resp
    simp only [get_study_hint_post]
    split_ifs <;> simp [lookupKey_setKey]
  have keyLvl : lookupKey "hint_level" (get_study_hint_post hint_level hint_response)
      = some (jnum hint_level) := by
    simp only [get_study_hint_post]
    split_ifs <;> simp [lookupKey_setKey]
  refine ⟨key hint_level hint_response, keyLvl, ?_, ?_, ?_, ?_⟩
  · intro other
    rw [key hint_level hint_response, key hint_level other]
  · rw [key 1 hint_response]; norm_num
  · rw [key 2 hint_response]; norm_num
  · rw [key 3 hint_response]; norm_num

/-! ### C6: `num_questions` clamping in `/api/quiz/generate` -/

/-- C6: the requested question count is clamped into `[1, 10]` before the
prompt is composed; `0` becomes `1`, `15` becomes `10`, an absent field
defaults to `3`, and the prompt uses the clamped value. -/
theorem claim_C6 (requested : Option Int) :
    1 ≤ clamp_num_questions requested
    ∧ clamp_num_questions requested ≤ 10
    ∧ clamp_num_questions (some 0) = 1
    ∧ clamp_num_questions (some 15) = 10
    ∧ clamp_num_questions none = 3
    ∧ generate_quiz_prompt "algebra" "mixed" (some 0)
        = "Generate 1 mixed difficulty quiz questions about algebra."
    ∧ generate_quiz_prompt "algebra" "mixed" (some 15)
        = "Generate 10 mixed difficulty quiz questions about algebra." := by
  refine ⟨?_, ?_, by decide, by decide, by decide, by rfl, by rfl⟩
  · unfold clamp_num_questions
    exact le_min (le_max_left _ _) (by norm_num)
  · unfold clamp_num_questions
    exact min_le_right _ _

/-! ### C7: authentication short-circuit -/

/-- C7 counterexample: `/api/verify-key` also requires the credential, but a
missing credential there is answered with HTTP 400 and a body carrying no
machine-readable `code` field at all — not the claimed 401-with-code. -/
theorem claim_C7_counterexample :
    (verify_api_key_route none (fun _ => (200, []))).1 = 400
    ∧ lookupKey "code" (verify_api_key_route none (fun _ => (200, []))).2 = none := by
  exact ⟨rfl, rfl⟩

/-- C7 (amended): every credential-gated endpoint except `/api/verify-key`
answers a missing credential with HTTP 401 and code `NO_API_KEY`, before
the gateway continuation is ever consumed (the result is the fixed 401
response whatever the continuation is), and that code is distinct from any
code produced for an upstream-rejected credential; `/api/verify-key`
instead answers 400 with no code field. -/
theorem claim_C7_amended (api_key : Option String) (h : keyTruthy api_key = false)
    (r1 r2 r3 r4 r5 r6 r7 r8 r9 : Unit → HttpResp) :
    solve_problem_route api_key r1 = no_api_key_long
    ∧ solve_from_file_route api_key r2 = no_api_key_long
    ∧ start_study_session_route api_key r3 = no_api_key_long
    ∧ get_study_hint_route api_key r4 = no_api_key_short
    ∧ check_study_step_route api_key r5 = no_api_key_short
    ∧ get_step_solution_route api_key r6 = no_api_key_short
    ∧ generate_quiz_route api_key r7 = no_api_key_long
    ∧ evaluate_answer_route api_key r8 = no_api_key_long
    ∧ no_api_key_long.1 = 401 ∧ no_api_key_short.1 = 401
    ∧ lookupKey "code" no_api_key_long.2 = some (jstr "NO_API_KEY")
    ∧ lookupKey "code" no_api_key_short.2 = some (jstr "NO_API_KEY")
    ∧ (∀ msg : String, lookupKey "code" (classify_gemini_error msg).2 ≠ some (jstr "NO_API_KEY"))
    ∧ verify_api_key_route api_key r9
        = (400, [("valid", jbool false), ("error", jstr "API key is required")]) := by
  refine ⟨?_, ?_, ?_, ?_, ?_, ?_, ?_, ?_, rfl, rfl, rfl, rfl, ?_, ?_⟩
  · simp [solve_problem_route, h]
  · simp [solve_from_file_route, h]
  · simp [start_study_session_route, h]
  · simp [get_study_hint_route, h]
  · simp [check_study_step_route, h]
  · simp [get_step_solution_route, h]
  · simp [generate_quiz_route, h]
  · simp [evaluate_answer_route, h]
  · intro msg
    unfold classify_gemini_error
    split <;> simp [lookupKey]
  · simp [verify_api_key_route, h]

/-- Witness for C7 (amended) at the concrete missing credential `none`. -/
theorem claim_C7_witness :
    keyTruthy none = false
    ∧ solve_problem_route none (fun _ => (200, [])) = no_api_key_long := by
  exact ⟨rfl, (claim_C7_amended none rfl (fun _ => (200, [])) (fun _ => (200, []))
    (fun _ => (200, [])) (fun _ => (200, [])) (fun _ => (200, [])) (fun _ => (200, []))
    (fun _ => (200, [])) (fun _ => (200, [])) (fun _ => (200, []))).1⟩

/-! ### C9: at most three images per gateway call -/

/-- C9: when `call_gemini_with_image` is given a list of images, the
outgoing content parts carry exactly the first `min 3 (length)` images —
never more than 3 — followed by the combined textual prompt as the last
part. -/
theorem claim_C9 {Img : Type} (imgs : List Img) (prompt system_prompt : String) :
    (call_gemini_with_image_parts (Sum.inl imgs) prompt system_prompt).filterMap partImage
        = imgs.take 3
    ∧ ((call_gemini_with_image_parts (Sum.inl imgs) prompt system_prompt).filterMap
        partImage).length ≤ 3
    ∧ (call_gemini_with_image_parts (Sum.inl imgs) prompt system_prompt).getLast?
        = some (Sum.inr (if prompt ≠ "" then
            system_prompt ++ "\n\nAdditional context from user: " ++ prompt else system_prompt)) := by
  have aux : ∀ (l : List Img) (s : String),
      (l.map Sum.inl ++ [Sum.inr s]).filterMap (partImage : Img ⊕ String → Option Img) = l := by
    intro l s
    induction l with
    | nil => simp [partImage]
    | cons x xs ih => simp [partImage, ih]
  have hparts : call_gemini_with_image_parts (Sum.inl imgs) prompt system_prompt
      = (imgs.take 3).map Sum.inl ++ [Sum.inr (if prompt ≠ "" then
          system_prompt ++ "\n\nAdditional context from user: " ++ prompt else system_prompt)] := rfl
  refine ⟨?_, ?_, ?_⟩
  · rw [hparts, aux]
  · rw [hparts, aux, List.length_take]
    exact min_le_left _ _
  · rw [hparts]
    exact List.getLast?_concat _

/-! ### C10: `/api/study/check` fails closed -/

/-- C10: the `/api/study/check` post-processing always yields `is_correct`,
`feedback` and `encouragement`; a model response lacking `is_correct` is
given `is_correct = false`. -/
theorem claim_C10 (check_response : JDict) :
    hasKey "is_correct" (check_study_step_post check_response) = true
    ∧ hasKey "feedback" (check_study_step_post check_response) = true
    ∧ hasKey "encouragement" (check_study_step_post check_response) = true
    ∧ (lookupKey "is_correct" check_response = none →
        lookupKey "is_correct" (check_study_step_post check_response) = some (jbool false)) := by
  have truthyHas : ∀ (d : JDict) (k : String), pyTruthy (jget d k) = true → hasKey k d = true :=
    fun _ _ => hasKey_of_truthy_jget
  refine ⟨?_, ?_, ?_, ?_⟩
  · simp only [check_study_step_post]
    split_ifs <;> simp_all [hasKey_setKey]
  · simp only [check_study_step_post]
    split_ifs <;> simp_all [hasKey_setKey]
  · simp only [check_study_step_post]
    split_ifs <;> simp_all [hasKey_setKey]
  · intro habs
    have h1 : hasKey "is_correct" check_response = false := by simp [hasKey, habs]
    simp only [check_study_step_post, h1]
    split_ifs <;> simp_all [lookupKey_setKey]

/-- Witness for C10 at the empty model response, which lacks `is_correct`. -/
theorem claim_C10_witness :
    lookupKey "is_correct" ([] : JDict) = none
    ∧ hasKey "is_correct" (check_study_step_post []) = true
    ∧ lookupKey "is_correct" (check_study_step_post []) = some (jbool false) := by
  exact ⟨rfl, (claim_C10 []).1, (claim_C10 []).2.2.2 rfl⟩

/-! ### C2: the parse-failure fallback of `call_gemini` -/

/-- C2: whenever `json.loads` fails on the cleaned model text, the
normalisation inside `call_gemini` returns (rather than raises) the
synthesized fallback: exactly one step whose explanation is the raw text
(truncated only beyond 1000 characters), and a `final_answer` produced by
the answer-line scan, defaulting to the fixed message when no line
containing "answer" with `=` or `:` exists. -/
theorem claim_C2 (raw : String) (h : json_loads (clean_json_response raw) = none) :
    call_gemini_normalize raw = fallback_solution raw
    ∧ jvalGetKey (call_gemini_normalize raw) "steps"
        = jarr [jobj [("step_number", jnum 1), ("action", jstr "Solution"),
                      ("explanation", jstr (truncate1000 raw)),
                      ("result", jstr (orDefault (scanned_final_answer raw) "See explanation"))]]
    ∧ (raw.length ≤ 1000 → truncate1000 raw = raw)
    ∧ jvalGetKey (call_gemini_normalize raw) "final_answer"
        = jstr (orDefault (scanned_final_answer raw)
            "See the explanation above for the complete solution")
    ∧ (answer_line raw = none →
        jvalGetKey (call_gemini_normalize raw) "final_answer"
          = jstr "See the explanation above for the complete solution")
    ∧ (strContains (toLowerStr raw) "answer" = true →
        ∀ line, answer_line raw = some line →
          jvalGetKey (call_gemini_normalize raw) "final_answer"
            = jstr (orDefault (extract_answer_candidate line)
                "See the explanation above for the complete solution")) := by
  have hroute : call_gemini_normalize raw = fallback_solution raw := by
    unfold call_gemini_normalize
    rw [h]
  refine ⟨hroute, ?_, ?_, ?_, ?_, ?_⟩
  · rw [hroute]
    simp [fallback_solution, jvalGetKey, jget, lookupKey]
  · intro hlen
    unfold truncate1000
    have : ¬raw.length > 1000 := by omega
    simp [this]
  · rw [hroute]
    simp [fallback_solution, jvalGetKey, jget, lookupKey]
  · intro hline
    rw [hroute]
    have hscan : scanned_final_answer raw = "" := by
      unfold scanned_final_answer
      rw [hline]
      split <;> rfl
    simp [fallback_solution, jvalGetKey, jget, lookupKey, hscan, orDefault]
  · intro hword line hline
    rw [hroute]
    have hscan : scanned_final_answer raw = extract_answer_candidate line := by
      unfold scanned_final_answer
      rw [hword, hline]
      simp
    simp [fallback_solution, jvalGetKey, jget, lookupKey, hscan]

/-- Witness for C2 at a raw output whose brace-delimited slice is not valid
JSON. -/
theorem claim_C2_witness :
    json_loads (clean_json_response "The answer is: \x7boops\x7d") = none
    ∧ call_gemini_normalize "The answer is: \x7boops\x7d"
        = fallback_solution "The answer is: \x7boops\x7d" :=
  ⟨rfl, (claim_C2 "The answer is: \x7boops\x7d" rfl).1⟩

/-! ### C8: `total_steps` versus `len(steps)` in `/api/study/start` -/

/-- C8 counterexample: a model response carrying a truthy `total_steps` is
passed through unchanged, so `total_steps = 7` coexists with a single-step
`steps` list — the claimed invariant `total_steps == len(steps)` fails. -/
theorem claim_C8_counterexample :
    lookupKey "total_steps" ((start_study_session_post "2x + 5 = 13"
        [("total_steps", jnum 7), ("steps", jarr [jobj []])]).getD [])
      = some (jnum 7)
    ∧ lookupKey "steps" ((start_study_session_post "2x + 5 = 13"
        [("total_steps", jnum 7), ("steps", jarr [jobj []])]).getD [])
      = some (jarr [jobj []])
    ∧ (7 : Int) ≠ (([jobj []] : List JVal).length : Int) := by
  refine ⟨rfl, rfl, by decide⟩

theorem study_plan_fill_steps_total (plan : JDict) :
    lookupKey "total_steps" (study_plan_fill_steps plan) = lookupKey "total_steps" plan := by
  unfold study_plan_fill_steps
  split_ifs <;> simp [lookupKey_setKey]

theorem study_plan_fill_rest_keeps (problem : String) (p2 : JDict) (k : String)
    (h1 : ¬"problem" = k) (h2 : ¬"encouragement" = k) :
    lookupKey k (study_plan_fill_rest problem p2) = lookupKey k p2 := by
  simp only [study_plan_fill_rest]
  split_ifs <;> simp [lookupKey_setKey, h1, h2]

/-- C8 (amended): the returned plan satisfies `total_steps == len(steps)`
whenever the model's response carries no truthy `total_steps` of its own
(in particular whenever the field is absent); a truthy model-supplied
`total_steps` is passed through unchecked. -/
theorem claim_C8_amended (problem : String) (study_plan : JDict)
    (h : pyTruthy (jget study_plan "total_steps") = false)
    (hsteps : ∀ v, lookupKey "steps" study_plan = some v → pyTruthy v = true → ∃ l, v = jarr l) :
    ∃ out steps, start_study_session_post problem study_plan = some out
      ∧ lookupKey "steps" out = some (jarr steps)
      ∧ lookupKey "total_steps" out = some (jnum (steps.length : Int)) := by
  obtain ⟨L, hL⟩ : ∃ L, lookupKey "steps" (study_plan_fill_steps study_plan) = some (jarr L) := by
    unfold study_plan_fill_steps
    by_cases hs : pyTruthy (jget study_plan "steps") = true
    · obtain ⟨v, hv⟩ : ∃ v, lookupKey "steps" study_plan = some v := by
        unfold jget at hs
        cases hl : lookupKey "steps" study_plan with
        | none => rw [hl] at hs; simp [pyTruthy] at hs
        | some v => exact ⟨v, rfl⟩
      have hvt : pyTruthy v = true := by
        unfold jget at hs
        rw [hv] at hs
        simpa using hs
      obtain ⟨l, rfl⟩ := hsteps v hv hvt
      refine ⟨l, ?_⟩
      simp [hs, hv]
    · simp only [Bool.not_eq_true] at hs
      refine ⟨[default_study_step], ?_⟩
      simp [hs, lookupKey_setKey]
  set p1 := study_plan_fill_steps study_plan with hp1
  have htot : pyTruthy (jget p1 "total_steps") = false := by
    unfold jget
    rw [study_plan_fill_steps_total]
    unfold jget at h
    exact h
  have hfill : study_plan_fill_total p1 = some (setKey "total_steps" (jnum (L.length : Int)) p1) := by
    unfold study_plan_fill_total
    rw [htot]
    have : jget p1 "steps" = jarr L := by unfold jget; rw [hL]; rfl
    simp [this, pyLen]
  refine ⟨study_plan_fill_rest problem (setKey "total_steps" (jnum (L.length : Int)) p1), L, ?_, ?_, ?_⟩
  · unfold start_study_session_post
    rw [hfill]
    rfl
  · rw [study_plan_fill_rest_keeps _ _ _ (by decide) (by decide)]
    rw [lookupKey_setKey_ne (by decide)]
    exact hL
  · rw [study_plan_fill_rest_keeps _ _ _ (by decide) (by decide)]
    rw [lookupKey_setKey_self]

/-- Witness for C8 (amended) at the empty model response. -/
theorem claim_C8_witness :
    pyTruthy (jget [] "total_steps") = false
    ∧ ∃ out steps, start_study_session_post "solve it" [] = some out
        ∧ lookupKey "steps" out = some (jarr steps)
        ∧ lookupKey "total_steps" out = some (jnum (steps.length : Int)) :=
  ⟨rfl, claim_C8_amended "solve it" [] rfl (fun _ hv _ => Option.noConfusion hv)⟩

/-! ### C4: the quiz-evaluation parse fallback is unreachable -/

/-- C4: at a request with matching answers ("2" vs "2") whose model response
is malformed JSON, `/api/quiz/evaluate` does not return the claimed
string-equality `Evaluation`: since `call_gemini` swallows the
`json.JSONDecodeError` itself, the handler returns the generic solve-style
fallback dict, which has no `is_correct` field at all, while the handler's
own (dead) parse-fallback branch would have produced `is_correct = true`. -/
theorem claim_C4 :
    json_loads (clean_json_response "Evaluation: \x7bnot json\x7d") = none
    ∧ evaluate_answer_response "2" "2" "Evaluation: \x7bnot json\x7d"
        = fallback_solution "Evaluation: \x7bnot json\x7d"
    ∧ jvalHasKey (evaluate_answer_response "2" "2" "Evaluation: \x7bnot json\x7d") "is_correct"
        = false
    ∧ jvalHasKey (evaluate_answer_parse_fallback "2" "2") "is_correct" = true
    ∧ jvalGetKey (evaluate_answer_parse_fallback "2" "2") "is_correct" = jbool true := by
  exact ⟨rfl, rfl, rfl, rfl, rfl⟩

/-! ### C1: structural completeness after `validate_solution_response` -/

theorem step_complete_fix_step (i : Nat) (st : JVal) : step_complete (fix_step i st) = true := by
  cases st with
  | jobj fields =>
    simp only [fix_step]
    simp [step_complete, hasKey_setKey]
  | jnull => rfl
  | jbool b => rfl
  | jnum n => rfl
  | jfloat q => rfl
  | jstr s => rfl
  | jarr l => rfl

theorem mem_mapWithIdx (P : JVal → Prop) {f : Nat → JVal → JVal}
    (hf : ∀ i st, P (f i st)) :
    ∀ (start : Nat) (l : List JVal) (x : JVal), x ∈ mapWithIdx f start l → P x := by
  intro start l
  induction l generalizing start with
  | nil => intro x hx; simp [mapWithIdx] at hx
  | cons a as ih =>
    intro x hx
    simp only [mapWithIdx, List.mem_cons] at hx
    rcases hx with rfl | hx
    · exact hf _ _
    · exact ih _ _ hx

theorem mapWithIdx_eq_nil {f : Nat → JVal → JVal} {start : Nat} {l : List JVal} :
    mapWithIdx f start l = [] ↔ l = [] := by
  cases l <;> simp [mapWithIdx]

theorem has_valid_steps_shape {solution : JDict} (h : has_valid_steps solution = true) :
    ∃ steps, jget solution "steps" = jarr steps ∧ steps ≠ [] := by
  unfold has_valid_steps at h
  cases hs : jget solution "steps" <;> rw [hs] at h <;> simp at h
  case jarr steps =>
    refine ⟨steps, rfl, ?_⟩
    have h1 := h.1
    simp [pyTruthy] at h1
    exact h1

theorem fix_steps_good (solution : JDict) (src : String) :
    ∃ L, lookupKey "steps" (fix_steps solution src) = some (jarr L) ∧ L ≠ []
      ∧ ∀ st ∈ L, step_complete st = true := by
  unfold fix_steps
  by_cases hv : has_valid_steps solution = true
  · obtain ⟨steps, hs, hne⟩ := has_valid_steps_shape hv
    rw [hv]
    simp only [Bool.not_true]
    rw [hs]
    refine ⟨mapWithIdx fix_step 0 steps, ?_, ?_, ?_⟩
    · simp [lookupKey_setKey]
    · rw [Ne, mapWithIdx_eq_nil]
      exact hne
    · exact fun st hst =>
        mem_mapWithIdx (fun st => step_complete st = true) step_complete_fix_step 0 steps st hst
  · simp only [Bool.not_eq_true] at hv
    rw [hv]
    simp only [Bool.not_false, if_true]
    split_ifs
    · refine ⟨[synth_answer_step (jgetD solution "final_answer" (jstr ""))], ?_, by simp, ?_⟩
      · simp [lookupKey_setKey]
      · intro st hst
        rcases List.mem_singleton.mp hst with rfl
        rfl
    · refine ⟨[processing_issue_step src], ?_, by simp, ?_⟩
      · simp [lookupKey_setKey]
      · intro st hst
        rcases List.mem_singleton.mp hst with rfl
        rfl

theorem fix_final_answer_keeps_steps (solution : JDict) :
    lookupKey "steps" (fix_final_answer solution) = lookupKey "steps" solution := by
  simp only [fix_final_answer]
  split_ifs <;> simp [lookupKey_setKey]

theorem fix_verification_keeps (solution : JDict) (k : String) (h : ¬"verification" = k) :
    lookupKey k (fix_verification solution) = lookupKey k solution := by
  simp only [fix_verification]
  split_ifs <;> simp [lookupKey_setKey, h]

theorem fix_final_answer_good (solution : JDict) :
    ∃ fa, lookupKey "final_answer" (fix_final_answer solution) = some fa
      ∧ (is_valid_answer fa = true
         ∨ fa = jstr "Unable to determine - please try entering the problem as text") := by
  simp only [fix_final_answer]
  split_ifs with h1 h2
  · cases hl : lookupKey "final_answer" solution with
    | none =>
      exfalso
      have hn : jget solution "final_answer" = jnull := by unfold jget; rw [hl]; rfl
      rw [hn] at h1
      exact absurd h1 (by decide)
    | some v =>
      have hv : jget solution "final_answer" = v := by unfold jget; rw [hl]; rfl
      rw [hv] at h1
      exact ⟨v, rfl, Or.inl h1⟩
  · refine ⟨_, lookupKey_setKey_self _ _ _, Or.inl ?_⟩
    simp only [Bool.and_eq_true] at h2
    exact h2.2
  · exact ⟨_, lookupKey_setKey_self _ _ _, Or.inr rfl⟩

theorem not_sentinel_of_is_valid {v : JVal} (h : is_valid_answer v = true) :
    answer_is_sentinel v = false := by
  simp only [is_valid_answer] at h
  split at h
  · exact absurd h (by simp)
  · split at h <;> rename_i hany
    · exact absurd h (by simp)
    · have hlen : (toLowerStr (pyStripStr (pyStr v))).length > 0 := of_decide_eq_true h
      have hne : ¬toLowerStr (pyStripStr (pyStr v)) = "" := by
        intro he
        rw [he] at hlen
        simp at hlen
      rw [Bool.not_eq_true] at hany
      rw [List.any_eq_false] at hany
      have hNA := hany (jstr "N/A") (by simp [invalid_answers])
      have hUD := hany (jstr "Unable to determine") (by simp [invalid_answers])
      have hSS := hany (jstr "See steps above") (by simp [invalid_answers])
      have hNM := hany (jstr "No math problem found") (by simp [invalid_answers])
      have hCI := hany (jstr "Could not identify") (by simp [invalid_answers])
      have hUS := hany (jstr "Unable to solve") (by simp [invalid_answers])
      rw [show pyTruthy (jstr "N/A") = true from rfl,
          show toLowerStr (pyStr (jstr "N/A")) = "n/a" from rfl] at hNA
      rw [show pyTruthy (jstr "Unable to determine") = true from rfl,
          show toLowerStr (pyStr (jstr "Unable to determine")) = "unable to determine" from rfl] at hUD
      rw [show pyTruthy (jstr "See steps above") = true from rfl,
          show toLowerStr (pyStr (jstr "See steps above")) = "see steps above" from rfl] at hSS
      rw [show pyTruthy (jstr "No math problem found") = true from rfl,
          show toLowerStr (pyStr (jstr "No math problem found")) = "no math problem found" from rfl] at hNM
      rw [show pyTruthy (jstr "Could not identify") = true from rfl,
          show toLowerStr (pyStr (jstr "Could not identify")) = "could not identify" from rfl] at hCI
      rw [show pyTruthy (jstr "Unable to solve") = true from rfl,
          show toLowerStr (pyStr (jstr "Unable to solve")) = "unable to solve" from rfl] at hUS
      simp only [Bool.true_and, Bool.not_eq_true] at hNA hUD hSS hNM hCI hUS
      unfold answer_is_sentinel
      simp only [claim_sentinels, List.any_cons, List.any_nil]
      rw [hNA, hUD, hSS, hNM, hCI, hUS]
      simp [hne]

/-- C1 counterexample: for the model response
`{"steps": [{"result": "ok"}, {"result": "N/A"}]}` the validator blanks the
last step's sentinel result and then backfills `final_answer` with the
message "Unable to determine - please try entering the problem as text",
which itself contains the defined sentinel "unable to determine" — so the
claimed "final_answer is never one of the defined sentinel values" fails. -/
theorem claim_C1_counterexample :
    answer_is_sentinel (jget (validate_solution_response
        [("steps", jarr [jobj [("result", jstr "ok")], jobj [("result", jstr "N/A")]])]
        "uploaded file") "final_answer") = true
    ∧ jget (validate_solution_response
        [("steps", jarr [jobj [("result", jstr "ok")], jobj [("result", jstr "N/A")]])]
        "uploaded file") "final_answer"
      = jstr "Unable to determine - please try entering the problem as text" := by
  exact ⟨rfl, rfl⟩

/-- C1 (amended): for every input solution dict and source description, the
validated output has a nonempty `steps` list all of whose entries carry all
four step fields, and its `final_answer` is never a sentinel — except that
it may be the validator's own explicit fallback message "Unable to
determine - please try entering the problem as text" when no valid answer
could be recovered. -/
theorem claim_C1_amended (solution : JDict) (source_description : String) :
    ∃ L fa,
      lookupKey "steps" (validate_solution_response solution source_description) = some (jarr L)
      ∧ L ≠ []
      ∧ (∀ st ∈ L, step_complete st = true)
      ∧ lookupKey "final_answer" (validate_solution_response solution source_description) = some fa
      ∧ (answer_is_sentinel fa = false
         ∨ fa = jstr "Unable to determine - please try entering the problem as text") := by
  obtain ⟨L, hL, hLne, hLall⟩ :=
    fix_steps_good (ensure_problem_fields solution source_description) source_description
  obtain ⟨fa, hfa, hfa2⟩ :=
    fix_final_answer_good (fix_steps (ensure_problem_fields solution source_description)
      source_description)
  refine ⟨L, fa, ?_, hLne, hLall, ?_, ?_⟩
  · unfold validate_solution_response
    rw [fix_verification_keeps _ _ (by decide), fix_final_answer_keeps_steps, hL]
  · unfold validate_solution_response
    rw [fix_verification_keeps _ _ (by decide), hfa]
  · rcases hfa2 with hvld | he
    · exact Or.inl (not_sentinel_of_is_valid hvld)
    · exact Or.inr he

/-! ### C3: fence/prose invariance of `clean_json_response`

The scan lemmas below characterize one `re.sub` pass (`reSub`): sufficient
fuel is irrelevant, the scan distributes over concatenation at a boundary
character that can occur in no match (in particular at a brace), it keeps
characters it does not delete, and it passes braces through. -/

theorem stripPrefixCL_some_decomp {pat s r : List Char} (h : stripPrefixCL pat s = some r) :
    s = pat ++ r := by
  induction pat generalizing s with
  | nil =>
    simp only [stripPrefixCL, Option.some.injEq] at h
    simp [h]
  | cons p ps ih =>
    cases s with
    | nil => simp [stripPrefixCL] at h
    | cons c cs =>
      simp only [stripPrefixCL] at h
      split_ifs at h with hp
      · subst hp
        simpa using ih h

theorem strip_append_some {pat s r : List Char} (y : List Char)
    (h : stripPrefixCL pat s = some r) :
    stripPrefixCL pat (s ++ y) = some (r ++ y) := by
  induction pat generalizing s with
  | nil =>
    simp only [stripPrefixCL, Option.some.injEq] at h
    simp [stripPrefixCL, h]
  | cons p ps ih =>
    cases s with
    | nil => simp [stripPrefixCL] at h
    | cons c cs =>
      simp only [stripPrefixCL] at h
      split_ifs at h with hp
      · subst hp
        simpa [stripPrefixCL] using ih h

theorem strip_append_none {pat s : List Char} {h : Char} (t : List Char)
    (hmem : h ∉ pat) (hs : stripPrefixCL pat s = none) :
    stripPrefixCL pat (s ++ h :: t) = none := by
  induction pat generalizing s with
  | nil => simp [stripPrefixCL] at hs
  | cons p ps ih =>
    cases s with
    | nil =>
      have hp : ¬p = h := fun he => hmem (he ▸ List.mem_cons_self p ps)
      simp [stripPrefixCL, hp]
    | cons c cs =>
      simp only [stripPrefixCL] at hs ⊢
      split_ifs with hp
      · exact ih (fun hm => hmem (List.mem_cons_of_mem p hm)) (by simpa [hp] using hs)
      · rfl

theorem dropWhile_append_cons {p : Char → Bool} {h : Char} (hp : p h = false)
    (r t : List Char) :
    (r ++ h :: t).dropWhile p = r.dropWhile p ++ h :: t := by
  induction r with
  | nil => simp [List.dropWhile_cons, hp]
  | cons a as ih =>
    by_cases ha : p a = true <;> simp [List.dropWhile_cons, ha, ih]

theorem reSubF_nil (p : Char) (ps : List Char) (ws : Bool) (f : Nat) :
    reSubF p ps ws f [] = [] := by
  cases f <;> rfl

theorem reSubF_cons_some {p : Char} {ps : List Char} {ws : Bool} {c : Char} {cs r : List Char}
    (f : Nat) (hm : stripPrefixCL (p :: ps) (c :: cs) = some r) :
    reSubF p ps ws (f + 1) (c :: cs) = reSubF p ps ws f (if ws then dropWs r else r) := by
  simp only [reSubF, hm]

theorem reSubF_cons_none {p : Char} {ps : List Char} {ws : Bool} {c : Char} {cs : List Char}
    (f : Nat) (hm : stripPrefixCL (p :: ps) (c :: cs) = none) :
    reSubF p ps ws (f + 1) (c :: cs) = c :: reSubF p ps ws f cs := by
  simp only [reSubF, hm]

theorem strip_some_length {p : Char} {ps s r : List Char}
    (hm : stripPrefixCL (p :: ps) s = some r) : r.length + ps.length + 1 = s.length := by
  have hlen := congrArg List.length (stripPrefixCL_some_decomp hm)
  simp only [List.length_cons, List.length_append] at hlen
  omega

theorem reSubF_fuel (p : Char) (ps : List Char) (ws : Bool) :
    ∀ (f g : Nat) (s : List Char), s.length ≤ f → s.length ≤ g →
      reSubF p ps ws f s = reSubF p ps ws g s := by
  intro f
  induction f using Nat.strong_induction_on with
  | _ f IH =>
    intro g s hf hg
    match f, s with
    | _, [] => rw [reSubF_nil, reSubF_nil]
    | 0, c :: cs => simp at hf
    | f + 1, c :: cs =>
      match g with
      | 0 => simp at hg
      | g + 1 =>
        simp only [List.length_cons] at hf hg
        cases hm : stripPrefixCL (p :: ps) (c :: cs) with
        | some r =>
          have hr : r.length ≤ cs.length := by
            have := strip_some_length hm
            simp only [List.length_cons] at this
            omega
          have hr' : (if ws then dropWs r else r).length ≤ cs.length := by
            cases ws
            · simpa using hr
            · simp only [if_true]
              exact le_trans (List.Sublist.length_le (List.dropWhile_sublist _)) hr
          rw [reSubF_cons_some f hm, reSubF_cons_some g hm]
          exact IH f (by omega) g _ (by omega) (by omega)
        | none =>
          rw [reSubF_cons_none f hm, reSubF_cons_none g hm]
          rw [IH f (by omega) g cs (by omega) (by omega)]

theorem reSubF_eq_reSub (p : Char) (ps : List Char) (ws : Bool) {f : Nat} {s : List Char}
    (hf : s.length ≤ f) : reSubF p ps ws f s = reSub p ps ws s :=
  reSubF_fuel p ps ws f s.length s hf le_rfl

theorem reSub_cons_nomatch {p : Char} {ps : List Char} {ws : Bool} {c : Char} {cs : List Char}
    (hm : stripPrefixCL (p :: ps) (c :: cs) = none) :
    reSub p ps ws (c :: cs) = c :: reSub p ps ws cs := by
  unfold reSub
  simp only [List.length_cons, reSubF, hm]

theorem strip_cons_ne {p c : Char} (ps cs : List Char) (h : ¬p = c) :
    stripPrefixCL (p :: ps) (c :: cs) = none := by
  simp [stripPrefixCL, h]

theorem reSub_append (p : Char) (ps : List Char) (ws : Bool) (h : Char) (t : List Char)
    (hws : isWs h = false) (hmem : h ∉ p :: ps) :
    ∀ (n : Nat) (x : List Char), x.length ≤ n →
      reSub p ps ws (x ++ h :: t) = reSub p ps ws x ++ reSub p ps ws (h :: t) := by
  intro n
  induction n with
  | zero =>
    intro x hx
    have : x = [] := by cases x with
      | nil => rfl
      | cons c cs => simp at hx
    subst this
    rfl
  | succ n ih =>
    intro x hx
    cases x with
    | nil => rfl
    | cons c cs =>
      simp only [List.length_cons] at hx
      show reSub p ps ws (c :: (cs ++ h :: t)) = reSub p ps ws (c :: cs) ++ reSub p ps ws (h :: t)
      cases hm : stripPrefixCL (p :: ps) (c :: cs) with
      | some r =>
        have hmy : stripPrefixCL (p :: ps) (c :: (cs ++ h :: t)) = some (r ++ h :: t) :=
          strip_append_some (h :: t) hm
        have hr : r.length ≤ cs.length := by
          have := strip_some_length hm
          simp only [List.length_cons] at this
          omega
        have hdw : (if ws then dropWs (r ++ h :: t) else r ++ h :: t)
            = (if ws then dropWs r else r) ++ h :: t := by
          cases ws
          · simp
          · simp only [if_true]
            exact dropWhile_append_cons hws r t
        have hr' : (if ws then dropWs r else r).length ≤ cs.length := by
          cases ws
          · simpa using hr
          · simp only [if_true]
            exact le_trans (List.Sublist.length_le (List.dropWhile_sublist _)) hr
        have hlhs : reSub p ps ws (c :: (cs ++ h :: t))
            = reSubF p ps ws ((cs ++ h :: t).length) ((if ws then dropWs r else r) ++ h :: t) := by
          unfold reSub
          rw [show (c :: (cs ++ h :: t)).length = (cs ++ h :: t).length + 1 from rfl]
          rw [reSubF_cons_some _ hmy, hdw]
        have hrhs : reSub p ps ws (c :: cs)
            = reSubF p ps ws cs.length (if ws then dropWs r else r) := by
          unfold reSub
          rw [show (c :: cs).length = cs.length + 1 from rfl]
          rw [reSubF_cons_some _ hm]
        rw [hlhs, hrhs]
        rw [reSubF_eq_reSub p ps ws (by simp only [List.length_append, List.length_cons]; omega)]
        rw [reSubF_eq_reSub p ps ws hr']
        exact ih _ (by omega)
      | none =>
        have hmy : stripPrefixCL (p :: ps) (c :: (cs ++ h :: t)) = none :=
          strip_append_none t hmem hm
        have hlhs : reSub p ps ws (c :: (cs ++ h :: t))
            = c :: reSubF p ps ws ((cs ++ h :: t).length) (cs ++ h :: t) := by
          unfold reSub
          rw [show (c :: (cs ++ h :: t)).length = (cs ++ h :: t).length + 1 from rfl]
          rw [reSubF_cons_none _ hmy]
        rw [hlhs, reSubF_eq_reSub p ps ws le_rfl, ih cs (by omega), reSub_cons_nomatch hm]
        rfl

theorem mem_reSubF {p : Char} {ps : List Char} {ws : Bool} {a : Char} :
    ∀ {f : Nat} {s : List Char}, a ∈ reSubF p ps ws f s → a ∈ s := by
  intro f
  induction f with
  | zero =>
    intro s ha
    cases s with
    | nil => simpa [reSubF] using ha
    | cons c cs => simpa [reSubF] using ha
  | succ f ih =>
    intro s ha
    cases s with
    | nil => simpa [reSubF] using ha
    | cons c cs =>
      simp only [reSubF] at ha
      cases hm : stripPrefixCL (p :: ps) (c :: cs) with
      | some r =>
        rw [hm] at ha
        have har : a ∈ (if ws then dropWs r else r) := ih ha
        have har2 : a ∈ r := by
          cases ws
          · simpa using har
          · simp only [if_true] at har
            exact (List.dropWhile_sublist _).subset har
        rw [stripPrefixCL_some_decomp hm]
        exact List.mem_append_right _ har2
      | none =>
        rw [hm] at ha
        rcases List.mem_cons.mp ha with rfl | ha2
        · exact List.mem_cons_self _ _
        · exact List.mem_cons_of_mem _ (ih ha2)

theorem mem_reSub {p : Char} {ps : List Char} {ws : Bool} {a : Char} {s : List Char}
    (h : a ∈ reSub p ps ws s) : a ∈ s :=
  mem_reSubF h

theorem reSub_middle (p : Char) (ps : List Char) (ws : Bool)
    (hlb : lb ∉ p :: ps) (hrb : rb ∉ p :: ps)
    (A B Mt M0 : List Char) (hM : lb :: Mt = M0 ++ [rb]) :
    reSub p ps ws (A ++ (lb :: Mt) ++ B)
        = reSub p ps ws A ++ reSub p ps ws (lb :: Mt) ++ reSub p ps ws B
    ∧ reSub p ps ws (lb :: Mt) = reSub p ps ws M0 ++ [rb]
    ∧ reSub p ps ws (lb :: Mt) = lb :: reSub p ps ws Mt := by
  have hplb : ¬p = lb := fun he => hlb (he ▸ List.mem_cons_self p ps)
  have hprb : ¬p = rb := fun he => hrb (he ▸ List.mem_cons_self p ps)
  have hheadlb : ∀ z : List Char, reSub p ps ws (lb :: z) = lb :: reSub p ps ws z :=
    fun z => reSub_cons_nomatch (strip_cons_ne ps z hplb)
  have hheadrb : ∀ z : List Char, reSub p ps ws (rb :: z) = rb :: reSub p ps ws z :=
    fun z => reSub_cons_nomatch (strip_cons_ne ps z hprb)
  have hsplit : ∀ B' : List Char,
      reSub p ps ws ((lb :: Mt) ++ B') = (reSub p ps ws M0 ++ [rb]) ++ reSub p ps ws B' := by
    intro B'
    rw [hM, show (M0 ++ [rb]) ++ B' = M0 ++ rb :: B' from by simp]
    rw [reSub_append p ps ws rb B' (by decide) hrb M0.length M0 le_rfl]
    rw [hheadrb]
    simp
  have hMid : reSub p ps ws (lb :: Mt) = reSub p ps ws M0 ++ [rb] := by
    have := hsplit []
    simpa using this
  refine ⟨?_, hMid, hheadlb Mt⟩
  rw [show A ++ (lb :: Mt) ++ B = A ++ lb :: (Mt ++ B) from by simp]
  rw [reSub_append p ps ws lb (Mt ++ B) (by decide) hlb A.length A le_rfl]
  rw [show (lb :: (Mt ++ B) : List Char) = (lb :: Mt) ++ B from by simp]
  rw [hsplit B, hMid]
  simp

theorem removeFences_middle (A B Mt M0 : List Char) (hM : lb :: Mt = M0 ++ [rb]) :
    ∃ A3 B3,
      removeFences (A ++ (lb :: Mt) ++ B) = A3 ++ removeFences (lb :: Mt) ++ B3
      ∧ (∃ Mt3, removeFences (lb :: Mt) = lb :: Mt3)
      ∧ (∃ M03, removeFences (lb :: Mt) = M03 ++ [rb])
      ∧ (∀ c ∈ A3, c ∈ A) ∧ (∀ c ∈ B3, c ∈ B) := by
  obtain ⟨e1, m1b, m1h⟩ :=
    reSub_middle bt fenceJsonTail true (by decide) (by decide) A B Mt M0 hM
  have hM2 : lb :: reSub bt fenceJsonTail true Mt
      = reSub bt fenceJsonTail true M0 ++ [rb] := by
    rw [← m1h, m1b]
  obtain ⟨e2, m2b, m2h⟩ :=
    reSub_middle bt fenceTail true (by decide) (by decide)
      (reSub bt fenceJsonTail true A) (reSub bt fenceJsonTail true B)
      (reSub bt fenceJsonTail true Mt) (reSub bt fenceJsonTail true M0) hM2
  have hM3 : lb :: reSub bt fenceTail true (reSub bt fenceJsonTail true Mt)
      = reSub bt fenceTail true (reSub bt fenceJsonTail true M0) ++ [rb] := by
    rw [← m2h, m2b]
  obtain ⟨e3, m3b, m3h⟩ :=
    reSub_middle bt fenceTail false (by decide) (by decide)
      (reSub bt fenceTail true (reSub bt fenceJsonTail true A))
      (reSub bt fenceTail true (reSub bt fenceJsonTail true B))
      (reSub bt fenceTail true (reSub bt fenceJsonTail true Mt))
      (reSub bt fenceTail true (reSub bt fenceJsonTail true M0)) hM3
  have hmid : removeFences (lb :: Mt)
      = reSub bt fenceTail false (lb :: reSub bt fenceTail true (reSub bt fenceJsonTail true Mt)) := by
    unfold removeFences
    rw [m1h, m2h]
  refine ⟨reSub bt fenceTail false (reSub bt fenceTail true (reSub bt fenceJsonTail true A)),
    reSub bt fenceTail false (reSub bt fenceTail true (reSub bt fenceJsonTail true B)),
    ?_,
    ⟨reSub bt fenceTail false (reSub bt fenceTail true (reSub bt fenceJsonTail true Mt)), ?_⟩,
    ⟨reSub bt fenceTail false (reSub bt fenceTail true (reSub bt fenceJsonTail true M0)), ?_⟩,
    ?_, ?_⟩
  · unfold removeFences
    rw [e1, m1h, e2, m2h, e3]
  · rw [hmid, m3h]
  · rw [hmid, m3b]
  · intro c hc
    exact mem_reSub (mem_reSub (mem_reSub hc))
  · intro c hc
    exact mem_reSub (mem_reSub (mem_reSub hc))

theorem firstIdx_append_cons (A R : List Char) (hA : ∀ c ∈ A, ¬c = lb) :
    firstIdx lb (A ++ lb :: R) = some A.length := by
  induction A with
  | nil => simp [firstIdx]
  | cons a as ih =>
    have ha : ¬a = lb := hA a (List.mem_cons_self a as)
    simp [firstIdx, ha, ih (fun c hc => hA c (List.mem_cons_of_mem a hc))]

theorem lastIdx_eq_none_of (B : List Char) (hB : ∀ c ∈ B, ¬c = rb) :
    lastIdx rb B = none := by
  induction B with
  | nil => rfl
  | cons a as ih =>
    have ha : ¬a = rb := hB a (List.mem_cons_self a as)
    simp [lastIdx, ih (fun c hc => hB c (List.mem_cons_of_mem a hc)), ha]

theorem lastIdx_append_cons (L B : List Char) (hB : ∀ c ∈ B, ¬c = rb) :
    lastIdx rb (L ++ rb :: B) = some L.length := by
  induction L with
  | nil => simp [lastIdx, lastIdx_eq_none_of B hB]
  | cons a as ih => simp [lastIdx, ih]

theorem pyStrip_middle (A B Mt M0 : List Char) (hM : lb :: Mt = M0 ++ [rb]) :
    ∃ A2 B2, pyStrip (A ++ (lb :: Mt) ++ B) = A2 ++ (lb :: Mt) ++ B2
      ∧ (∀ c ∈ A2, c ∈ A) ∧ (∀ c ∈ B2, c ∈ B) := by
  refine ⟨A.dropWhile isWs, (B.reverse.dropWhile isWs).reverse, ?_, ?_, ?_⟩
  · unfold pyStrip
    have h1 : (A ++ (lb :: Mt) ++ B).dropWhile isWs = A.dropWhile isWs ++ ((lb :: Mt) ++ B) := by
      rw [show A ++ (lb :: Mt) ++ B = A ++ lb :: (Mt ++ B) from by simp]
      rw [dropWhile_append_cons (by decide) A (Mt ++ B)]
      simp
    rw [h1]
    have h2 : (A.dropWhile isWs ++ ((lb :: Mt) ++ B)).reverse
        = B.reverse ++ rb :: (M0.reverse ++ (A.dropWhile isWs).reverse) := by
      rw [hM]
      simp [List.reverse_append]
    rw [h2, dropWhile_append_cons (by decide) B.reverse _]
    rw [hM]
    simp [List.reverse_append, List.append_assoc]
  · exact fun c hc => (List.dropWhile_sublist _).subset hc
  · intro c hc
    rw [List.mem_reverse] at hc
    have := (List.dropWhile_sublist _).subset hc
    rwa [List.mem_reverse] at this

theorem pyStrip_bracketed (Mt M0 : List Char) (hM : lb :: Mt = M0 ++ [rb]) :
    pyStrip (lb :: Mt) = lb :: Mt := by
  unfold pyStrip
  rw [List.dropWhile_cons]
  simp only [show isWs lb = false from by decide, Bool.false_eq_true, if_false]
  rw [hM]
  have h1 : (M0 ++ [rb]).reverse = rb :: M0.reverse := by simp
  rw [h1, List.dropWhile_cons]
  simp only [show isWs rb = false from by decide, Bool.false_eq_true, if_false]
  simp

theorem clean_json_from_middle (text : String) (A B Mt M0 : List Char)
    (hne : ¬text = "")
    (htext : removeFences text.toList = A ++ (lb :: Mt) ++ B)
    (hM : lb :: Mt = M0 ++ [rb])
    (hA : ∀ c ∈ A, ¬c = lb) (hB : ∀ c ∈ B, ¬c = rb) :
    clean_json_response text = String.mk (lb :: Mt) := by
  simp only [clean_json_response]
  rw [if_neg hne, htext]
  obtain ⟨A2, B2, hstrip, hA2, hB2⟩ := pyStrip_middle A B Mt M0 hM
  rw [hstrip]
  have hf : firstIdx lb (A2 ++ (lb :: Mt) ++ B2) = some A2.length := by
    rw [show A2 ++ (lb :: Mt) ++ B2 = A2 ++ lb :: (Mt ++ B2) from by simp]
    exact firstIdx_append_cons A2 _ (fun c hc => hA c (hA2 c hc))
  have hl : lastIdx rb (A2 ++ (lb :: Mt) ++ B2) = some (A2 ++ M0).length := by
    rw [hM, show A2 ++ (M0 ++ [rb]) ++ B2 = (A2 ++ M0) ++ rb :: B2 from by simp]
    exact lastIdx_append_cons (A2 ++ M0) B2 (fun c hc => hB c (hB2 c hc))
  rw [hf, hl]
  show String.mk (pyStrip (pySlice (A2 ++ (lb :: Mt) ++ B2) A2.length ((A2 ++ M0).length + 1)))
      = String.mk (lb :: Mt)
  have hlen : (A2 ++ M0).length + 1 = A2.length + (lb :: Mt).length := by
    have hlen2 := congrArg List.length hM
    simp only [List.length_cons, List.length_append, List.length_nil] at hlen2
    simp only [List.length_cons, List.length_append]
    omega
  have hslice : pySlice (A2 ++ (lb :: Mt) ++ B2) A2.length ((A2 ++ M0).length + 1)
      = lb :: Mt := by
    unfold pySlice
    rw [hlen]
    have htake : (A2 ++ (lb :: Mt) ++ B2).take (A2.length + (lb :: Mt).length)
        = A2 ++ (lb :: Mt) := by
      rw [show A2 ++ (lb :: Mt) ++ B2 = (A2 ++ (lb :: Mt)) ++ B2 from by simp]
      exact List.take_left' (by simp)
    rw [htake, List.drop_left]
  rw [hslice, pyStrip_bracketed Mt M0 hM]

/-- C3 counterexample: with a single `{` of leading prose, the extracted
span starts at the prose's brace instead of the payload's, so cleaning the
wrapped text differs from cleaning the JSON object text alone. -/
theorem claim_C3_counterexample :
    clean_json_response ("\x7b" ++ "\x60\x60\x60json\n" ++ "\x7b\"a\": 1\x7d" ++ "\n\x60\x60\x60" ++ "")
      ≠ clean_json_response "\x7b\"a\": 1\x7d" := by
  decide

/-- C3 (amended): wrapping a JSON object text (one starting with `{` and
ending with `}`) in markdown code fences and surrounding it with leading
and trailing prose does not change the result of `clean_json_response`,
provided the prose contains no `{` or `}` characters. -/
theorem claim_C3_amended (J p1 p2 : String)
    (hhead : J.toList.head? = some lb) (hlast : J.toList.getLast? = some rb)
    (hp1 : braceFree p1) (hp2 : braceFree p2) :
    clean_json_response (p1 ++ "\x60\x60\x60json\n" ++ J ++ "\n\x60\x60\x60" ++ p2)
      = clean_json_response J := by
  obtain ⟨Mt, hJ⟩ : ∃ Mt, J.toList = lb :: Mt := by
    cases hJ : J.toList with
    | nil => rw [hJ] at hhead; simp at hhead
    | cons c cs =>
      rw [hJ] at hhead
      simp only [List.head?_cons, Option.some.injEq] at hhead
      exact ⟨cs, by rw [hhead]⟩
  obtain ⟨M0, hM0⟩ : ∃ M0, J.toList = M0 ++ [rb] := List.getLast?_eq_some_iff.mp hlast
  have hM : lb :: Mt = M0 ++ [rb] := by rw [← hJ, hM0]
  have hwl : (p1 ++ "\x60\x60\x60json\n" ++ J ++ "\n\x60\x60\x60" ++ p2).toList
      = (p1.toList ++ "\x60\x60\x60json\n".toList) ++ (lb :: Mt)
        ++ ("\n\x60\x60\x60".toList ++ p2.toList) := by
    show p1.toList ++ "\x60\x60\x60json\n".toList ++ J.toList ++ "\n\x60\x60\x60".toList
        ++ p2.toList = _
    rw [hJ]
    simp [List.append_assoc]
  obtain ⟨A3, B3, hdecomp, ⟨Mt3, hmid_h⟩, ⟨M03, hmid_l⟩, hA3, hB3⟩ :=
    removeFences_middle (p1.toList ++ "\x60\x60\x60json\n".toList)
      ("\n\x60\x60\x60".toList ++ p2.toList) Mt M0 hM
  have hA0 : ∀ c ∈ p1.toList ++ "\x60\x60\x60json\n".toList, ¬c = lb := by
    intro c hc
    rcases List.mem_append.mp hc with hc | hc
    · exact (hp1 c hc).1
    · intro he
      subst he
      revert hc
      decide
  have hB0 : ∀ c ∈ "\n\x60\x60\x60".toList ++ p2.toList, ¬c = rb := by
    intro c hc
    rcases List.mem_append.mp hc with hc | hc
    · intro he
      subst he
      revert hc
      decide
    · exact (hp2 c hc).2
  have hne : ¬(p1 ++ "\x60\x60\x60json\n" ++ J ++ "\n\x60\x60\x60" ++ p2) = "" := by
    intro he
    have := congrArg String.toList he
    rw [hwl] at this
    simp at this
  have hJne : ¬J = "" := by
    intro he
    have := congrArg String.toList he
    rw [hJ] at this
    simp at this
  have hMmid : lb :: Mt3 = M03 ++ [rb] := by rw [← hmid_h, hmid_l]
  have h1 : clean_json_response (p1 ++ "\x60\x60\x60json\n" ++ J ++ "\n\x60\x60\x60" ++ p2)
      = String.mk (lb :: Mt3) := by
    apply clean_json_from_middle _ A3 B3 Mt3 M03 hne ?_ hMmid
      (fun c hc => hA0 c (hA3 c hc)) (fun c hc => hB0 c (hB3 c hc))
    rw [hwl, hdecomp, hmid_h]
  have h2 : clean_json_response J = String.mk (lb :: Mt3) := by
    apply clean_json_from_middle _ [] [] Mt3 M03 hJne ?_ hMmid
      (by simp) (by simp)
    rw [hJ, hmid_h]
    simp
  rw [h1, h2]

/-- Witness for C3 (amended) at a concrete payload and brace-free prose. -/
theorem claim_C3_witness :
    ("\x7b\"a\": 1\x7d" : String).toList.head? = some lb
    ∧ ("\x7b\"a\": 1\x7d" : String).toList.getLast? = some rb
    ∧ braceFree "Sure! Here is the JSON: "
    ∧ braceFree " Hope this helps."
    ∧ clean_json_response ("Sure! Here is the JSON: " ++ "\x60\x60\x60json\n"
        ++ "\x7b\"a\": 1\x7d" ++ "\n\x60\x60\x60" ++ " Hope this helps.")
      = clean_json_response "\x7b\"a\": 1\x7d" :=
  ⟨rfl, rfl, by unfold braceFree; decide, by unfold braceFree; decide,
    claim_C3_amended "\x7b\"a\": 1\x7d" "Sure! Here is the JSON: " " Hope this helps."
      rfl rfl (by unfold braceFree; decide) (by unfold braceFree; decide)⟩

end MathTutor
